import Mathlib

/-!
Verification of the authorization and request-governance core of the
`go_admin` repository against its natural-language specification.

Go strings are embedded as `List Char` (named `Str` below); Go maps whose
values are always `true` are embedded as the list of their keys, with
`List.contains` playing the role of map lookup.  Each definition mirrors one
Go function and carries the name of that function where Lean allows it.
-/

namespace GoAdmin

/-- Go strings, embedded as lists of characters. -/
abbrev Str := List Char

/-- Conversion from Lean string literals to the `Str` embedding. -/
def str (s : String) : Str := s.data

/-- Go `strings.SplitN(key, ":", 2)` restricted to the two-part result:
returns `some (before, after)` when the string contains a colon (splitting at
the first one) and `none` when it does not (in which case the Go code sees a
one-element slice and skips the entry). -/
def splitFirstColon : Str → Option (Str × Str)
  | [] => none
  | c :: cs =>
    if c = ':' then some ([], cs)
    else
      match splitFirstColon cs with
      | none => none
      | some (a, b) => some (c :: a, b)

/-- Go `strings.HasPrefix(s, pre)`. -/
def hasPre (s pre : Str) : Bool := pre.isPrefixOf s

/-- Go `strings.HasSuffix(s, suf)`. -/
def hasSuf (s suf : Str) : Bool := suf.isSuffixOf s

/-- Go `strings.TrimSuffix(s, suf)` for a two-character suffix: drop the last
two characters (only ever applied after a successful suffix test). -/
def dropLast2 (s : Str) : Str := s.take (s.length - 2)

/-- The body of the wildcard loop of
`PermissionService.checkPathPermission`: one entry of the permission map
matches the request when the key splits as `permMethod:permPath`,
`permMethod` equals the method or is `*`, `permPath` ends in `/*`, and the
request path starts with the prefix obtained by stripping that suffix. -/
def permEntryMatches (method path key : Str) : Bool :=
  match splitFirstColon key with
  | none => false
  | some (permMethod, permPath) =>
    if permMethod ≠ method && permMethod ≠ str "*" then false
    else if hasSuf permPath (str "/*") then hasPre path (dropLast2 permPath)
    else false

/-- Embedding of `PermissionService.checkPathPermission`:
an exact hit on the key `method:path` allows, otherwise the map entries are
scanned with the wildcard rule of `permEntryMatches`; everything else
denies.  The Go map is embedded as its list of keys (`permissionMap[k]`
holds exactly when `k` is a key), and the unordered Go `range` loop, whose
result only depends on whether some entry matches, becomes `List.any`. -/
def checkPathPermission (permissionMap : List Str) (method path : Str) : Bool :=
  if permissionMap.contains (method ++ [':'] ++ path) then true
  else permissionMap.any (fun key => permEntryMatches method path key)

/-- The matching semantics that claim C1 states, written from the claim's
words (not from the code): exact `method:path` allows; a `permMethod:permPath`
entry with `permPath` ending in `/*` allows any path starting with the
stripped prefix, provided `permMethod` equals the method or is `*`; an entry
`*:p` with `p` not ending in `/*` allows any method on the exact path `p`;
every other case denies. -/
def claimC1Allows (permissionMap : List Str) (method path : Str) : Bool :=
  permissionMap.contains (method ++ [':'] ++ path)
  || permissionMap.any (fun key => permEntryMatches method path key)
  || permissionMap.any (fun key =>
      match splitFirstColon key with
      | none => false
      | some (permMethod, permPath) =>
        permMethod = str "*" && ¬ hasSuf permPath (str "/*") && permPath = path)

/-- A permission row as far as path matching is concerned:
`vo.Permission.Method` and `vo.Permission.Path`. -/
structure Permission where
  method : Str
  path : Str
deriving DecidableEq, Repr

/-- The permission-map construction step of `PermissionService.HasPermission`:
an entry `Method:Path` is put into the per-user map for each permission whose
method and path are both nonempty. -/
def buildPermissionMap (permissions : List Permission) : List Str :=
  (permissions.filter (fun p => p.method ≠ [] && p.path ≠ [])).map
    (fun p => p.method ++ [':'] ++ p.path)

/-- Embedding of `PermissionService.GetUserPermissionPaths`: the `method:path` strings of
the user's permissions, skipping those with an empty method or path. -/
def getUserPermissionPaths (permissions : List Permission) : List Str :=
  (permissions.filter (fun p => p.method ≠ [] && p.path ≠ [])).map
    (fun p => p.method ++ [':'] ++ p.path)

/-- Embedding of `PermissionService.HasPermission` after a cache fill from the given
permission list: check the map built by `buildPermissionMap`. -/
def hasPermissionOnPerms (permissions : List Permission) (method path : Str) : Bool :=
  checkPathPermission (buildPermissionMap permissions) method path

/-- A role as the identity service sees it: `vo.Role.ID` and `vo.Role.Code`. -/
structure RoleVo where
  id : Nat
  code : Str
deriving DecidableEq, Repr

/-- Embedding of `PermissionService.fetchHighestPriorityRole`: `nil` on an empty slice,
otherwise start from `roles[0]` and replace the candidate whenever a role
with a strictly smaller id is seen (the Go loop ranges over the whole
slice, including `roles[0]` again, which the fold reproduces). -/
def fetchHighestPriorityRole (roles : List RoleVo) : Option RoleVo :=
  match roles with
  | [] => none
  | r :: _ =>
    some (roles.foldl (fun highest role =>
      if role.id < highest.id then role else highest) r)

/-- The role-code selection of `AuthService.Login` (and the identical block
of `AuthService.RefreshToken`): the code of the highest-priority role, or
the literal `"guest"` when the user has no roles. -/
def loginRoleCode (roles : List RoleVo) : Str :=
  match fetchHighestPriorityRole roles with
  | none => str "guest"
  | some role => role.code

/-- The outcome of `AuthService.Login` restricted to what claim C5 is
about: the repository lookup and the password check are abstracted into the
two booleans (a miss of either yields `invalid credentials`), and a
successful login reports the role code embedded into the generated token
pair. -/
def login (userFound verifyOk : Bool) (roles : List RoleVo) : Except Str Str :=
  if !userFound then .error (str "invalid credentials")
  else if !verifyOk then .error (str "invalid credentials")
  else .ok (loginRoleCode roles)

/-- The claims carried by a token: `jwtauth.Claims`
(`Identity`, `Nice`, `RoleKey`, `Type`, `ExpiresAt`). -/
structure Claims where
  identity : Str
  nice : Str
  roleKey : Str
  ttype : Str
  expiresAt : Nat
deriving DecidableEq, Repr

/-- A token string as `JWT.ParseToken` classifies it: the empty string, a
string that does not verify (bad signature, wrong algorithm family, or
garbage), or a well-signed envelope around some claims.  The HMAC-SHA-256
envelope itself is external library code; the embedding keeps only the
verdict of signature verification. -/
inductive TokenStr where
  | empty : TokenStr
  | malformed : TokenStr
  | signed (c : Claims) : TokenStr
deriving DecidableEq, Repr

/-- A generated pair: `jwtauth.TokenPair`. -/
structure TokenPair where
  accessToken : TokenStr
  refreshToken : TokenStr
  expiresAt : Nat
deriving DecidableEq, Repr

/-- Embedding of `JWT.ParseToken(tokenString)` at instant `now`: fails on anything that
is not a well-signed envelope and on expired claims, otherwise returns the
claims. -/
def parseToken (now : Nat) : TokenStr → Except Str Claims
  | .empty => .error (str "parse token failed")
  | .malformed => .error (str "parse token failed")
  | .signed c =>
    if c.expiresAt ≤ now then .error (str "parse token failed: token is expired")
    else .ok c

/-- Embedding of `JWT.GenerateToken(userID, username, roleKey)` at instant `now` with the
configured expiries: an `access`-typed and a `refresh`-typed well-signed
token with independent expiries. -/
def generateToken (accessExp refreshExp now : Nat) (userID username roleKey : Str) : TokenPair :=
  { accessToken := .signed
      { identity := userID, nice := username, roleKey := roleKey
        ttype := str "access", expiresAt := now + accessExp }
    refreshToken := .signed
      { identity := userID, nice := username, roleKey := roleKey
        ttype := str "refresh", expiresAt := now + refreshExp }
    expiresAt := now + accessExp }

/-- Embedding of `JWT.RefreshToken(refreshTokenStr)`: parse, reject a `Type` claim other
than `refresh`, then generate a fresh pair from the parsed claims. -/
def jwtRefreshToken (accessExp refreshExp now : Nat) (t : TokenStr) : Except Str TokenPair :=
  match parseToken now t with
  | .error e => .error (str "invalid refresh token: " ++ e)
  | .ok claims =>
    if claims.ttype ≠ str "refresh" then .error (str "not a refresh token")
    else .ok (generateToken accessExp refreshExp now claims.identity claims.nice claims.roleKey)

/-- Go `strconv.ParseUint(s, 10, 64)` to the extent the service uses it:
`none` exactly when the string is not a plain decimal numeral. -/
def parseUintDec (s : Str) : Option Nat :=
  if s = [] then none
  else if s.all (fun c => c.isDigit) then some (s.foldl (fun n c => n * 10 + (c.toNat - 48)) 0)
  else none

/-- Embedding of `AuthService.RefreshToken(refreshToken)`: reject the empty string, parse
the token (no check of the `Type` claim), parse the user id, re-read the
roles (`roles` below; a read error is only logged and leaves the list
empty), pick the current role code, and generate a fresh pair. -/
def authRefreshToken (accessExp refreshExp now : Nat) (roles : List RoleVo)
    (t : TokenStr) : Except Str TokenPair :=
  if t = .empty then .error (str "refresh token is required")
  else
    match parseToken now t with
    | .error e => .error (str "invalid refresh token: " ++ e)
    | .ok claims =>
      match parseUintDec claims.identity with
      | none => .error (str "invalid user ID in token")
      | some _ =>
        let roleCode :=
          if roles.length > 0 then
            match fetchHighestPriorityRole roles with
            | some role => role.code
            | none => str "guest"
          else str "guest"
        .ok (generateToken accessExp refreshExp now claims.identity claims.nice roleCode)

/-- Character class used by `parseDuration`: Go keeps digits and `'.'` for
the number part and routes every other character to the unit part. -/
def isDigitOrDot (c : Char) : Bool := c.isDigit || c = '.'

/-- Numeric value of a digit string (most significant first). -/
def digitsVal (s : Str) : Nat := s.foldl (fun n c => n * 10 + (c.toNat - 48)) 0

/-- Fuel-based bit length (structural recursion, so concrete inputs reduce
in the kernel; `Nat.log2` itself is defined by well-founded recursion and
would not). -/
def bitLen : Nat → Nat → Nat
  | 0, _ => 0
  | fuel + 1, n => if n = 0 then 0 else bitLen fuel (n / 2) + 1

/-- Number of binary digits of `n` (`n` itself is always enough fuel). -/
def natBitLen (n : Nat) : Nat := bitLen n n

/-- Fuel-based binary exponentiation for powers of two (logarithmic
unfolding depth, so the large exponents of the `float64` range reduce
without exhausting the elaborator). -/
def pow2fuel : Nat → Nat → Nat
  | 0, _ => 1
  | fuel + 1, n =>
    if n = 0 then 1
    else
      let h := pow2fuel fuel (n / 2)
      if n % 2 = 0 then h * h else 2 * (h * h)

/-- The power `2 ^ n` (`n` itself is always enough fuel). -/
def pow2 (n : Nat) : Nat := pow2fuel n n

/-- Whether `2 ^ e ≤ N / D` for an integer exponent `e` and a positive
rational `N / D`, decided exactly in integer arithmetic. -/
def pow2le (e : Int) (N D : Nat) : Bool :=
  if 0 ≤ e then pow2 e.toNat * D ≤ N else D ≤ N * pow2 (-e).toNat

/-- Floor of the binary logarithm of the positive rational `N / D`:
the bit lengths bracket it within one, and one exact comparison settles
it. -/
def ratLog2 (N D : Nat) : Int :=
  let guess : Int := (natBitLen N : Int) - (natBitLen D : Int)
  if pow2le guess N D then guess else guess - 1

/-- Round the nonnegative rational `A / B` (with `B` positive) to the
nearest integer, ties to even — the IEEE-754 rounding that
`strconv.ParseFloat` applies. -/
def roundRatHalfEven (A B : Nat) : Nat :=
  let q := A / B
  let r := A % B
  if 2 * r < B then q
  else if B < 2 * r then q + 1
  else if q % 2 = 0 then q else q + 1

/-- Nearest `float64` to the positive rational `N / D`, computed exactly:
locate the binary exponent, clamp it at the subnormal threshold `-1022`,
round the scaled value to a 53-bit significand with ties to even, and
report `none` when the rounded value reaches `2 ^ 1024` — the case in which
`strconv.ParseFloat` returns its range error.  The result is returned as a
pair `(m, qe)` denoting the exact value `m * 2 ^ qe`. -/
def roundFloat64 (N D : Nat) : Option (Nat × Int) :=
  let e := ratLog2 N D
  let clamped := max e (-1022)
  let qe := clamped - 52
  let m :=
    if 0 ≤ qe then roundRatHalfEven N (D * pow2 qe.toNat)
    else roundRatHalfEven (N * pow2 (-qe).toNat) D
  if (if 0 ≤ qe then pow2 1024 ≤ m * pow2 qe.toNat else pow2 (1024 + (-qe).toNat) ≤ m)
  then none
  else some (m, qe)

/-- Floor of `m * 2 ^ qe`. -/
def floorPow2 (m : Nat) (qe : Int) : Nat :=
  if 0 ≤ qe then m * pow2 qe.toNat else m / pow2 (-qe).toNat

/-- Go `strconv.ParseFloat(numStr, 64)` on the digit-and-dot strings
`parseDuration` feeds it, composed with the truncation toward zero that the
subsequent `time.Duration(num)` conversion performs: `none` on invalid
syntax (no digit, or more than one dot) and on the range error for
numerals whose nearest-even rounding leaves `float64` range; otherwise the
integer part of the correctly rounded `float64` value of the numeral. -/
def goParseFloatTrunc (s : Str) : Option Nat :=
  if s.count '.' ≤ 1 && s.any Char.isDigit then
    let mantissa := digitsVal (s.filter Char.isDigit)
    let fracLen := ((s.dropWhile (fun c => ¬(c = '.'))).drop 1).length
    if mantissa = 0 then some 0
    else
      match roundFloat64 mantissa (10 ^ fracLen) with
      | none => none
      | some (m, qe) => some (floorPow2 m qe)
  else none

/-- Go conversion of a nonnegative integral `float64` value to `int64`
(the `time.Duration(num)` step): exact below `2 ^ 63`; on overflow the
conversion is implementation-dependent in Go, and the amd64/arm64 targets
this program is built for yield the minimal `int64`, which the model
adopts. -/
def float2Int64 (v : Nat) : Int :=
  if v < pow2 63 then (v : Int) else -(pow2 63 : Nat)

/-- Two's-complement wraparound to 64 signed bits — Go's defined overflow
behavior for `int64` arithmetic. -/
def wrap64 (x : Int) : Int :=
  (x + (pow2 63 : Nat)) % (pow2 64 : Nat) - (pow2 63 : Nat)

/-- Go `int64` multiplication with wraparound
(`time.Duration(num) * dur`). -/
def int64Mul (a b : Int) : Int := wrap64 (a * b)

/-- The `units` map of `parseDuration`, in nanoseconds
(`time.Second = 10^9 ns`), looked up after `strings.ToLower`. -/
def unitNanos (u : Str) : Option Nat :=
  let lower := u.map Char.toLower
  if lower = str "s" then some 1000000000
  else if lower = str "m" then some 60000000000
  else if lower = str "h" then some 3600000000000
  else if lower = str "d" then some 86400000000000
  else if lower = str "w" then some 604800000000000
  else none

/-- Embedding of `jwtauth.parseDuration(s)`: reject the empty string, partition the
characters of `s` into the digit-or-dot ones (the number) and the rest
(the unit) keeping their relative order, reject when either part is empty,
parse the number with `ParseFloat` (rejecting syntax and range errors),
look the lowercased unit up, and return `time.Duration(num) * dur` — the
float truncated to `int64` and multiplied by the unit's nanoseconds with
`int64` wraparound. -/
def parseDuration (s : Str) : Except Str Int :=
  if s = [] then .error (str "empty duration string")
  else
    let numStr := s.filter isDigitOrDot
    let unit := s.filter (fun c => !(isDigitOrDot c))
    if numStr = [] || unit = [] then .error (str "invalid duration format")
    else
      match goParseFloatTrunc numStr with
      | none => .error (str "invalid number in duration")
      | some num =>
        match unitNanos unit with
        | none => .error (str "unknown unit in duration")
        | some dur => .ok (int64Mul (float2Int64 num) (dur : Int))

/-- The syntax claim C6 asserts the parser recognizes, written from the
claim's words: a decimal number (digits, optionally with one decimal point)
followed by one of the literal units `s`, `m`, `h`, `d`, `w`. -/
def claimC6Form (s : Str) : Bool :=
  match s.reverse with
  | [] => false
  | u :: revNum =>
    let num := revNum.reverse
    (u = 's' || u = 'm' || u = 'h' || u = 'd' || u = 'w')
      && num ≠ [] && num.all isDigitOrDot && num.count '.' ≤ 1 && num.any Char.isDigit

/-- A link-table row: `(user id, role id)` for `UserRole`,
`(role id, permission id)` for `RolePermission`. -/
abbrev LinkRow := Nat × Nat

/-- Embedding of `FindAll(ctx, &Model\x7bTarget: target\x7d)` on a link table:
`BuildFiltersFromModel` skips zero-valued fields, so a zero target produces
no condition at all and the query returns every row; otherwise the rows of
that target. -/
def findAllLinks (target : Nat) (table : List LinkRow) : List LinkRow :=
  if target = 0 then table else table.filter (fun r => r.1 = target)

/-- The shared body of `AssignUserRoles` and `AssignRolePermissions`:
read the existing links of the target, compute the ids to remove
(existing minus requested) and to add (requested minus existing), then in
one transaction delete the rows of the target whose id is to be removed and
insert one row per id to add. -/
def assignLinks (target : Nat) (requested : List Nat) (table : List LinkRow) : List LinkRow :=
  let existing := (findAllLinks target table).map (fun r => r.2)
  let toRemove := existing.filter (fun id => !(requested.contains id))
  let toAdd := requested.filter (fun id => !(existing.contains id))
  let afterDelete := table.filter (fun r => !(r.1 = target && toRemove.contains r.2))
  afterDelete ++ toAdd.map (fun id => (target, id))

/-- The per-user permission cache, embedded as the set of user ids that
currently have a cached entry. -/
abbrev PermCache := List Nat

/-- Embedding of `AssignUserRoles(userID, roleIDs)` on a link table plus the cache
effect: on success `ClearUserPermissionCache(userID)` removes that user's
cache entries. -/
def assignUserRoles (userID : Nat) (roleIDs : List Nat) (table : List LinkRow)
    (cache : PermCache) : List LinkRow × PermCache :=
  (assignLinks userID roleIDs table, cache.filter (fun u => u ≠ userID))

/-- Embedding of `AssignRolePermissions(roleID, permissionIDs)` on a link table plus the
cache effect: on success `ClearAllPermissionCache()` empties the cache. -/
def assignRolePermissions (roleID : Nat) (permissionIDs : List Nat)
    (table : List LinkRow) (_cache : PermCache) : List LinkRow × PermCache :=
  (assignLinks roleID permissionIDs table, [])

/-- The two columns of the entity used to exercise `FindByKey`: the key
strings `"id"` and `"value"` of the generic repository, embedded as an
enumeration. -/
inductive Col where
  | idCol : Col
  | valCol : Col
deriving DecidableEq, Repr

/-- A stored row of that entity. -/
structure Row where
  id : Nat
  val : Nat
deriving DecidableEq, Repr

/-- Column projection. -/
def colVal (r : Row) : Col → Nat
  | .idCol => r.id
  | .valCol => r.val

/-- Embedding of `processor.Query` with the single equality filter on a key and `Limit: 2`
that `FindByKey` issues: the matching rows, at most two of them. -/
def queryLimit2 (table : List Row) (key : Col) (v : Nat) : List Row :=
  (table.filter (fun r => colVal r key = v)).take 2

/-- Embedding of `GenericRepository.FindByKey(key, value)`: query with limit 2, then
`record not found` on an empty result, `multiple records found` on more
than one row, otherwise the unique row. -/
def findByKey (table : List Row) (key : Col) (v : Nat) : Except Str Row :=
  match queryLimit2 table key v with
  | [] => .error (str "record not found")
  | [r] => .ok r
  | _ => .error (str "multiple records found")

/-- Embedding of `GenericRepository.FindByID(id)`: resolve the id column of the entity
and delegate to `FindByKey`. -/
def findByID (table : List Row) (v : Nat) : Except Str Row :=
  findByKey table .idCol v

/-- The request-scoped context as the transaction layer sees it: the value
stored under `TransactionKeyInstance`, i.e. the in-flight session id if
any. -/
abbrev Ctx := Option Nat

/-- The world the transaction layer acts on: the committed database (a bag
of rows), the open sessions with their uncommitted writes, a counter for
fresh session ids, and logs of which sessions were committed and rolled
back (in order). -/
structure TxWorld where
  nextSession : Nat
  committed : List Nat
  pending : List (Nat × List Nat)
  commits : List Nat
  rollbacks : List Nat
deriving DecidableEq, Repr

/-- The empty world. -/
def TxWorld.init : TxWorld := ⟨0, [], [], [], []⟩

/-- Embedding of `XormProcessor.Begin(ctx)`: open a fresh session with no pending writes
and return its id; the caller stores it in the derived context, shadowing
any session the incoming context carried. -/
def beginTx (w : TxWorld) : Nat × TxWorld :=
  (w.nextSession,
   { w with
     nextSession := w.nextSession + 1
     pending := (w.nextSession, []) :: w.pending })

/-- Embedding of `XormProcessor.Commit(ctx)`: fail when the context carries no session;
otherwise append the session's pending writes to the committed database,
close the session and log the commit. -/
def commitTx (ctx : Ctx) (w : TxWorld) : Except Str TxWorld :=
  match ctx with
  | none => .error (str "transaction session not found in context")
  | some sid =>
    .ok { w with
          committed := w.committed ++ ((w.pending.lookup sid).getD [])
          pending := w.pending.filter (fun p => p.1 ≠ sid)
          commits := w.commits ++ [sid] }

/-- Embedding of `XormProcessor.Rollback(ctx)`: fail when the context carries no
session; otherwise discard the session's pending writes and log the
rollback. -/
def rollbackTx (ctx : Ctx) (w : TxWorld) : Except Str TxWorld :=
  match ctx with
  | none => .error (str "transaction session not found in context")
  | some sid =>
    .ok { w with
          pending := w.pending.filter (fun p => p.1 ≠ sid)
          rollbacks := w.rollbacks ++ [sid] }

/-- Discarding variant used where the Go code ignores or only logs the
rollback error (`_ = p.Rollback(txCtx)` on panic, `log.Printf` on error). -/
def rollbackSilent (sid : Nat) (w : TxWorld) : TxWorld :=
  match rollbackTx (some sid) w with
  | .ok w1 => w1
  | .error _ => w

/-- Record a row into a session's pending writes (a DB write executed on
the session bound to the context). -/
def addPending (sid : Nat) (row : Nat) (w : TxWorld) : TxWorld :=
  { w with
    pending := w.pending.map (fun p => if p.1 = sid then (p.1, p.2 ++ [row]) else p) }

/-- Result of a transaction body, as `XormProcessor.Transaction` sees it:
normal success, an error return, or a panic. -/
inductive Outcome where
  | ok : Outcome
  | err (msg : Str) : Outcome
  | panicked (msg : Str) : Outcome
deriving DecidableEq, Repr

/-- The tail of `XormProcessor.Transaction` after `fn` has run on the fresh
session `sid`: commit on success (a commit failure is returned as the
call's error), roll back and return the error on failure, roll back and
re-raise on panic. -/
def finishTx (sid : Nat) (out : Outcome) (w : TxWorld) : Outcome × TxWorld :=
  match out with
  | .ok =>
    match commitTx (some sid) w with
    | .ok w1 => (.ok, w1)
    | .error e => (.err e, w)
  | .err m => (.err m, rollbackSilent sid w)
  | .panicked m => (.panicked m, rollbackSilent sid w)

/-- The bodies that can be passed to `Transaction`, as a small command
language: a DB write, an error return, a panic, sequencing, and a nested
`Transaction` call. -/
inductive Prog where
  | skip : Prog
  | insert (row : Nat) : Prog
  | fail (msg : Str) : Prog
  | panicP (msg : Str) : Prog
  | seq (a b : Prog) : Prog
  | tx (body : Prog) : Prog
deriving DecidableEq, Repr

/-- Interpreter.  `insert` follows `Create`/`ExecuteInTransaction`: with a
session in the context the write joins it, without one the write runs in
its own one-shot transaction.  `tx body` is
`XormProcessor.Transaction(ctx, body)`: `Begin` opens a fresh session
regardless of what the context carries, the body runs under the derived
context, and `finishTx` commits or rolls back that session. -/
def runProg : Prog → Ctx → TxWorld → Outcome × TxWorld
  | .skip, _, w => (.ok, w)
  | .fail m, _, w => (.err m, w)
  | .panicP m, _, w => (.panicked m, w)
  | .insert row, ctx, w =>
    match ctx with
    | some sid => (.ok, addPending sid row w)
    | none =>
      let (sid, w1) := beginTx w
      finishTx sid .ok (addPending sid row w1)
  | .seq a b, ctx, w =>
    match runProg a ctx w with
    | (.ok, w1) => runProg b ctx w1
    | r => r
  | .tx body, _ctx, w =>
    let (sid, w1) := beginTx w
    let (out, w2) := runProg body (some sid) w1
    finishTx sid out w2

/-- Bodies that never invoke a nested `Transaction`. -/
def txFree : Prog → Bool
  | .tx _ => false
  | .seq a b => txFree a && txFree b
  | _ => true

/-- One resource block of the sentinel policy file
(`config.ResourceConfig`): name, path, enabled switch, and whether a flow
rule and a circuit-breaker rule are attached (`ToFlowRules` and
`ToCircuitBreakerRules` return rules exactly when the resource and the
sub-rule are both enabled). -/
structure ResourceConfig where
  name : Str
  path : Str
  enabled : Bool
  flowEnabled : Bool
  cbEnabled : Bool
deriving DecidableEq, Repr

/-- The `resourceMap` built by `Sentinel.loadRules`: enabled resources are
inserted in order into a Go map keyed by path, so for duplicate paths the
last one wins. -/
def resourceMapLookup (resources : List ResourceConfig) (path : Str) : Option Str :=
  (((resources.filter (fun r => r.enabled)).reverse.find? (fun r => r.path = path)).map
    (fun r => r.name))

/-- The resource names for which `loadRules` loaded at least one flow or
circuit-breaker rule. -/
def loadedRuleNames (resources : List ResourceConfig) : List Str :=
  (resources.filter (fun r => r.enabled && (r.flowEnabled || r.cbEnabled))).map
    (fun r => r.name)

/-- Embedding of `Sentinel.matchResource(path)`: the mapped name when the path is
declared, and `("global_default", true)` — not a miss — otherwise. -/
def matchResource (resources : List ResourceConfig) (path : Str) : Str × Bool :=
  match resourceMapLookup resources path with
  | some name => (name, true)
  | none => (str "global_default", true)

/-- Verdict of the middleware for one request. -/
inductive GateDecision where
  | pass : GateDecision
  | reject429 : GateDecision
deriving DecidableEq, Repr

/-- Whether `api.Entry(name)` blocks: the sentinel library can only reject
under a rule loaded for that resource name; `reject` abstracts the runtime
state of those rules (windows, counters, breaker state). -/
def entryBlocked (ruleNames : List Str) (reject : Str → Bool) (name : Str) : Bool :=
  ruleNames.contains name && reject name

/-- Embedding of `Sentinel.Middleware()` for one request: look the path up with
`matchResource`, pass on a miss (dead branch, since `matchResource` never
reports one), otherwise enter the gate under the matched name and reject
with 429 exactly when it blocks. -/
def middlewareDecide (resources : List ResourceConfig) (reject : Str → Bool)
    (path : Str) : GateDecision :=
  let m := matchResource resources path
  if !m.2 then .pass
  else if entryBlocked (loadedRuleNames resources) reject m.1 then .reject429
  else .pass

/-! ## Theorems -/

/-- Helper: the loop body of `checkPathPermission`, rewritten as one
boolean conjunction (the Go control flow returns `true` only when the
method part matches, the path part ends in `/*`, and the stripped prefix
starts the request path). -/
theorem permEntryMatches_eq (method path key : Str) :
    permEntryMatches method path key =
      (match splitFirstColon key with
       | none => false
       | some (a, b) =>
         ((a = method || a = str "*") && hasSuf b (str "/*")
           && hasPre path (dropLast2 b))) := by
  unfold permEntryMatches
  cases h : splitFirstColon key with
  | none => rfl
  | some ab =>
    obtain ⟨a, b⟩ := ab
    by_cases h1 : a = method <;> by_cases h2 : a = str "*" <;>
      by_cases h3 : hasSuf b (str "/*") = true <;>
        simp [h1, h2, h3]

theorem permEntryMatches_iff (method path key : Str) :
    permEntryMatches method path key = true ↔
      ∃ a b, splitFirstColon key = some (a, b) ∧ (a = method ∨ a = str "*") ∧
        hasSuf b (str "/*") = true ∧ hasPre path (dropLast2 b) = true := by
  rw [permEntryMatches_eq]
  cases h : splitFirstColon key with
  | none => simp
  | some ab =>
    obtain ⟨a, b⟩ := ab
    simp [Bool.and_eq_true, Bool.or_eq_true]
    constructor
    · rintro ⟨⟨hor, hs⟩, hp⟩
      exact ⟨a, b, ⟨rfl, rfl⟩, hor, hs, hp⟩
    · rintro ⟨a1, b1, ⟨ha, hb⟩, hor, hs, hp⟩
      subst ha
      subst hb
      exact ⟨⟨hor, hs⟩, hp⟩

/-- C1 (amended): `checkPathPermission` allows exactly the requests with an
exact `method:path` entry or a tail-wildcard entry `permMethod:prefix/*`
whose method part equals the request method or is `*` and whose stripped
prefix starts the request path; an entry `*:p` with `p` not ending in `/*`
never allows anything beyond the exact-key rule, and every other case
denies. -/
theorem checkPathPermission_semantics_c1 (pm : List Str) (method path : Str) :
    checkPathPermission pm method path = true ↔
      ((method ++ [':'] ++ path) ∈ pm ∨
        ∃ key ∈ pm, ∃ a b, splitFirstColon key = some (a, b) ∧
          (a = method ∨ a = str "*") ∧
          hasSuf b (str "/*") = true ∧ hasPre path (dropLast2 b) = true) := by
  unfold checkPathPermission
  by_cases h : (method ++ [':'] ++ path) ∈ pm <;>
    simp [h, List.any_eq_true, permEntryMatches_iff]

/-- C1 counterexample: the claim's semantics say that the entry `*:/a`
(method wildcard on an exact path) allows `GET /a`, but
`checkPathPermission` has no exact-path clause inside its wildcard loop and
denies the request. -/
theorem c1_star_exact_entry_counterexample :
    claimC1Allows [ str "*:/a"] (str "GET") (str "/a") = true ∧
      checkPathPermission [ str "*:/a"] (str "GET") (str "/a") = false := by
  constructor <;> decide

/-- C10: a pure grouping permission (empty method or empty path) is never
entered into the cached permission map, is excluded from the permission
path listing, and therefore never changes the verdict of
`HasPermission`. -/
theorem grouping_nodes_inert_c10 (perms : List Permission) (g : Permission)
    (method path : Str) (h : g.method = [] ∨ g.path = []) :
    buildPermissionMap (perms ++ [g]) = buildPermissionMap perms ∧
      getUserPermissionPaths (perms ++ [g]) = getUserPermissionPaths perms ∧
      hasPermissionOnPerms (perms ++ [g]) method path =
        hasPermissionOnPerms perms method path := by
  have hfilter : (perms ++ [g]).filter (fun p => p.method ≠ [] && p.path ≠ []) =
      perms.filter (fun p => p.method ≠ [] && p.path ≠ []) := by
    rw [List.filter_append]
    have : [g].filter (fun p => p.method ≠ [] && p.path ≠ []) = [] := by
      rcases h with h | h <;> simp [List.filter, h]
    rw [this, List.append_nil]
  refine ⟨?_, ?_, ?_⟩
  · unfold buildPermissionMap
    rw [hfilter]
  · unfold getUserPermissionPaths
    rw [hfilter]
  · unfold hasPermissionOnPerms buildPermissionMap
    rw [hfilter]

/-- C10 witness: concrete instance, a grouping node with empty method. -/
theorem grouping_nodes_inert_c10_witness :
    ((⟨[], str "/x"⟩ : Permission).method = [] ∨ (⟨[], str "/x"⟩ : Permission).path = []) ∧
      hasPermissionOnPerms [⟨ str "GET", str "/a"⟩, ⟨[], str "/x"⟩] (str "GET") (str "/a") =
        hasPermissionOnPerms [⟨ str "GET", str "/a"⟩] (str "GET") (str "/a") :=
  ⟨Or.inl rfl,
    (grouping_nodes_inert_c10 [⟨ str "GET", str "/a"⟩] ⟨[], str "/x"⟩
      (str "GET") (str "/a") (Or.inl rfl)).2.2⟩


/-- Helper: folding the smaller-id selection over a role list yields an
element of `acc :: l` whose id is minimal. -/
theorem foldl_min_facts (l : List RoleVo) (acc : RoleVo) :
    (l.foldl (fun h r => if r.id < h.id then r else h) acc = acc ∨
      l.foldl (fun h r => if r.id < h.id then r else h) acc ∈ l) ∧
    (l.foldl (fun h r => if r.id < h.id then r else h) acc).id ≤ acc.id ∧
    ∀ y ∈ l, (l.foldl (fun h r => if r.id < h.id then r else h) acc).id ≤ y.id := by
  induction l generalizing acc with
  | nil => simp
  | cons x xs ih =>
    simp only [List.foldl_cons]
    by_cases hx : x.id < acc.id
    · rw [if_pos hx]
      obtain ⟨hmem, hle, hall⟩ := ih x
      refine ⟨?_, le_trans hle (le_of_lt hx), ?_⟩
      · rcases hmem with h | h
        · right
          rw [h]
          exact List.mem_cons_self x xs
        · right
          exact List.mem_cons_of_mem x h
      · intro y hy
        rcases List.mem_cons.mp hy with rfl | hy
        · exact hle
        · exact hall y hy
    · rw [if_neg hx]
      obtain ⟨hmem, hle, hall⟩ := ih acc
      refine ⟨?_, hle, ?_⟩
      · rcases hmem with h | h
        · left
          exact h
        · right
          exact List.mem_cons_of_mem x h
      · intro y hy
        rcases List.mem_cons.mp hy with rfl | hy
        · exact le_trans hle (Nat.not_lt.mp hx)
        · exact hall y hy

/-- C5: a successful login embeds into the tokens the code of a role of the
user with the numerically smallest id among the user's roles, and the
literal `"guest"` when the user has no roles. -/
theorem login_role_code_c5 (userFound verifyOk : Bool) (roles : List RoleVo)
    (rk : Str) (h : login userFound verifyOk roles = .ok rk) :
    (roles = [] → rk = str "guest") ∧
    (roles ≠ [] → ∃ role ∈ roles, rk = role.code ∧ ∀ r ∈ roles, role.id ≤ r.id) := by
  cases userFound <;> cases verifyOk <;> simp [login] at h
  constructor
  · intro hr
    subst hr
    simp [loginRoleCode, fetchHighestPriorityRole] at h
    exact h.symm
  · intro hr
    rcases hroles : roles with _ | ⟨r, rs⟩
    · exact absurd hroles hr
    · subst hroles
      simp [loginRoleCode, fetchHighestPriorityRole] at h
      obtain ⟨hmem, hle, hall⟩ := foldl_min_facts (r :: rs) r
      have hfold : (r :: rs).foldl (fun highest role => if role.id < highest.id then role else highest) r
          = rs.foldl (fun highest role => if role.id < highest.id then role else highest) r := by
        simp [List.foldl_cons]
      rw [hfold] at hmem hle hall
      refine ⟨rs.foldl (fun highest role => if role.id < highest.id then role else highest) r,
        ?_, h.symm, hall⟩
      rcases hmem with he | he
      · rw [he]
        exact List.mem_cons_self r rs
      · exact he

/-- C5 witness: with roles `{id 5 ADMIN, id 2 OPS}` the login succeeds and
reports `OPS`, the code of the smallest id. -/
theorem login_role_code_c5_witness :
    login true true [⟨5, str "ADMIN"⟩, ⟨2, str "OPS"⟩] = .ok (str "OPS") ∧
      ∃ role ∈ ([⟨5, str "ADMIN"⟩, ⟨2, str "OPS"⟩] : List RoleVo),
        str "OPS" = role.code ∧
          ∀ r ∈ ([⟨5, str "ADMIN"⟩, ⟨2, str "OPS"⟩] : List RoleVo), role.id ≤ r.id :=
  ⟨rfl, (login_role_code_c5 true true [⟨5, str "ADMIN"⟩, ⟨2, str "OPS"⟩]
      (str "OPS") rfl).2 (by decide)⟩

/-- C9: `FindByKey` returns a row exactly when it is the unique match,
`record not found` exactly when nothing matches, `multiple records found`
exactly when at least two rows match (the limit-2 query sees two of them),
and `FindByID` delegates to `FindByKey` on the id column. -/
theorem findByKey_unique_c9 (table : List Row) (key : Col) (v : Nat) :
    (∀ r, findByKey table key v = .ok r ↔
        table.filter (fun x => colVal x key = v) = [r]) ∧
    (findByKey table key v = .error (str "record not found") ↔
        table.filter (fun x => colVal x key = v) = []) ∧
    (findByKey table key v = .error (str "multiple records found") ↔
        2 ≤ (table.filter (fun x => colVal x key = v)).length) ∧
    findByID table v = findByKey table .idCol v := by
  refine ⟨?_, ?_, ?_, rfl⟩ <;>
    rcases hm : table.filter (fun x => colVal x key = v) with _ | ⟨a, _ | ⟨b, rest⟩⟩ <;>
      simp [findByKey, queryLimit2, hm, str]

/-- C4: the code-level witness of the divergence.  `AuthService.RefreshToken`
accepts a valid, unexpired access token (`type = "access"`) and issues a
fresh token pair, while `JWT.RefreshToken` — which the service does not
call — rejects the same token with `not a refresh token`. -/
theorem auth_refresh_accepts_access_token_c4 :
    authRefreshToken 10 20 0 [] (.signed ⟨ str "1", str "admin", str "ADMIN", str "access", 100⟩) =
      .ok (generateToken 10 20 0 (str "1") (str "admin") (str "guest")) ∧
    jwtRefreshToken 10 20 0 (.signed ⟨ str "1", str "admin", str "ADMIN", str "access", 100⟩) =
      .error (str "not a refresh token") := ⟨rfl, rfl⟩

/-- Helper: exact success characterization of `parseDuration` in terms of
the character-class partition of the input: the digit-or-dot part must be a
numeral `ParseFloat` accepts within `float64` range and the remaining part
a known unit, and the value is the truncated float times the unit with
`int64` wraparound. -/
theorem parseDuration_ok_iff (s : Str) (n : Int) :
    parseDuration s = .ok n ↔
      (s.filter isDigitOrDot ≠ [] ∧ s.filter (fun c => !(isDigitOrDot c)) ≠ [] ∧
        ∃ v, goParseFloatTrunc (s.filter isDigitOrDot) = some v ∧
          ∃ d, unitNanos (s.filter (fun c => !(isDigitOrDot c))) = some d ∧
            n = int64Mul (float2Int64 v) (d : Int)) := by
  unfold parseDuration
  by_cases hs : s = []
  · subst hs
    simp
  · rw [if_neg hs]
    by_cases hnum : s.filter isDigitOrDot = []
    · simp [hnum]
    · by_cases hunit : s.filter (fun c => !(isDigitOrDot c)) = []
      · simp [hnum, hunit]
      · have hcond : (decide (s.filter isDigitOrDot = [])
            || decide (s.filter (fun c => !(isDigitOrDot c)) = [])) = false := by
          rw [decide_eq_false hnum, decide_eq_false hunit]
          rfl
        rw [if_neg (by simp only [hcond]; exact Bool.false_ne_true)]
        cases hv : goParseFloatTrunc (s.filter isDigitOrDot) with
        | none =>
          constructor
          · intro hcontra
            exact absurd hcontra (by simp)
          · rintro ⟨-, -, v, hveq, -⟩
            exact absurd hveq (by simp)
        | some v =>
          cases hu : unitNanos (s.filter (fun c => !(isDigitOrDot c))) with
          | none =>
            constructor
            · intro hcontra
              exact absurd hcontra (by simp)
            · rintro ⟨-, -, v1, hveq, d, hdeq, -⟩
              exact absurd hdeq (by simp)
          | some d =>
            constructor
            · intro hok
              injection hok with h1
              exact ⟨hnum, hunit, v, rfl, d, rfl, h1.symm⟩
            · rintro ⟨-, -, v1, hveq, d1, hdeq, hn⟩
              injection hveq with hv1
              subst hv1
              injection hdeq with hd1
              subst hd1
              rw [hn]

/-- Helper: every string of the claimed `⟨number⟩⟨unit⟩` shape whose number
part `ParseFloat` accepts within range parses successfully. -/
theorem parseDuration_form_sound (s : Str) (v : Nat) (h : claimC6Form s = true)
    (hv : goParseFloatTrunc (s.filter isDigitOrDot) = some v) :
    ∃ n, parseDuration s = .ok n := by
  unfold claimC6Form at h
  rcases hrev : s.reverse with _ | ⟨u, revNum⟩
  · rw [hrev] at h
    exact absurd h (by simp)
  · rw [hrev] at h
    simp only [Bool.and_eq_true, Bool.or_eq_true, decide_eq_true_eq, ne_eq] at h
    obtain ⟨⟨⟨⟨hu, hne⟩, hall⟩, hcount⟩, hdig⟩ := h
    have hs : s = revNum.reverse ++ [u] := by
      have h2 := congrArg List.reverse hrev
      rwa [List.reverse_reverse, List.reverse_cons] at h2
    have hud : isDigitOrDot u = false := by
      rcases hu with (((h1 | h1) | h1) | h1) | h1 <;> subst h1 <;> decide
    have hfilter1 : s.filter isDigitOrDot = revNum.reverse := by
      rw [hs, List.filter_append]
      have e1 : revNum.reverse.filter isDigitOrDot = revNum.reverse :=
        List.filter_eq_self.mpr (by
          intro a ha
          exact List.all_eq_true.mp hall a ha)
      have e2 : List.filter isDigitOrDot [u] = [] := by
        simp [List.filter, hud]
      rw [e1, e2, List.append_nil]
    have hfilter2 : s.filter (fun c => !(isDigitOrDot c)) = [u] := by
      rw [hs, List.filter_append]
      have e1 : revNum.reverse.filter (fun c => !(isDigitOrDot c)) = [] := by
        rw [List.filter_eq_nil_iff]
        intro a ha
        have := List.all_eq_true.mp hall a ha
        simp [this]
      have e2 : List.filter (fun c => !(isDigitOrDot c)) [u] = [u] := by
        simp [List.filter, hud]
      rw [e1, e2, List.nil_append]
    have hd : ∃ d, unitNanos [u] = some d := by
      rcases hu with (((h1 | h1) | h1) | h1) | h1 <;> subst h1 <;> exact ⟨_, rfl⟩
    obtain ⟨d, hdval⟩ := hd
    refine ⟨int64Mul (float2Int64 v) (d : Int),
      (parseDuration_ok_iff s _).mpr ⟨?_, ?_, v, hv, d, ?_, rfl⟩⟩
    · rw [hfilter1]
      exact hne
    · rw [hfilter2]
      simp
    · rw [hfilter2]
      exact hdval

/-- C6 counterexample: `"s5"` — the unit before the number — is not of the
claimed `⟨decimal number⟩⟨unit⟩` form, yet the parser accepts it and
returns 5 seconds. -/
theorem c6_unit_before_number_counterexample :
    parseDuration (str "s5") = .ok 5000000000 ∧ claimC6Form (str "s5") = false :=
  ⟨rfl, by decide⟩

/-- C6 (amended): the parser accepts every string of the claimed
`⟨number⟩⟨unit⟩` form whose number `ParseFloat` accepts within `float64`
range, but more generally it classifies characters by kind regardless of
their order: it succeeds exactly when the digit-or-dot characters form a
numeral that `ParseFloat` accepts without a range error and the remaining
characters lowercased form a unit in `{s,m,h,d,w}`; the returned duration
is the numeral's correctly rounded `float64` value truncated to `int64`
(minimal `int64` on conversion overflow, per the amd64/arm64 targets)
times the unit's nanoseconds, with `int64` wraparound. -/
theorem parseDuration_semantics_c6 :
    (∀ s v, claimC6Form s = true →
      goParseFloatTrunc (s.filter isDigitOrDot) = some v →
      ∃ n, parseDuration s = .ok n) ∧
    (∀ s n, parseDuration s = .ok n ↔
      (s.filter isDigitOrDot ≠ [] ∧ s.filter (fun c => !(isDigitOrDot c)) ≠ [] ∧
        ∃ v, goParseFloatTrunc (s.filter isDigitOrDot) = some v ∧
          ∃ d, unitNanos (s.filter (fun c => !(isDigitOrDot c))) = some d ∧
            n = int64Mul (float2Int64 v) (d : Int))) :=
  ⟨parseDuration_form_sound, parseDuration_ok_iff⟩

/-- C6 witness: `"30d"` is of the claimed form, its number part parses to
30, and the whole string parses successfully. -/
theorem parseDuration_semantics_c6_witness :
    claimC6Form (str "30d") = true ∧
      goParseFloatTrunc ((str "30d").filter isDigitOrDot) = some 30 ∧
      ∃ n, parseDuration (str "30d") = .ok n :=
  ⟨by decide, by decide,
    parseDuration_semantics_c6.1 (str "30d") 30 (by decide) (by decide)⟩

/-- Helper: with a nonzero target, the rows of the target after an
assignment are exactly the requested ids. -/
theorem assignLinks_mem (target : Nat) (requested : List Nat)
    (table : List LinkRow) (id : Nat) (h : target ≠ 0) :
    ((target, id) ∈ assignLinks target requested table ↔ id ∈ requested) := by
  simp [assignLinks, findAllLinks, h, List.mem_filter]
  tauto

/-- Helper: an assignment leaves the rows of every other target
untouched. -/
theorem assignLinks_frame (target : Nat) (requested : List Nat)
    (table : List LinkRow) (r : LinkRow) (hne : r.1 ≠ target) :
    (r ∈ table → r ∈ assignLinks target requested table) ∧
    (r ∈ assignLinks target requested table → r ∈ table) := by
  constructor
  · intro hr
    refine List.mem_append.mpr (Or.inl (List.mem_filter.mpr ⟨hr, ?_⟩))
    simp [hne]
  · intro hr
    rcases List.mem_append.mp hr with hd | ha
    · exact (List.mem_filter.mp hd).1
    · obtain ⟨i, _, hri⟩ := List.mem_map.mp ha
      exact absurd (congrArg Prod.fst hri.symm) hne

/-- Helper: repeating the same assignment is the identity on the link
table. -/
theorem assignLinks_idem (target : Nat) (requested : List Nat)
    (table : List LinkRow) (h : target ≠ 0) :
    assignLinks target requested (assignLinks target requested table) =
      assignLinks target requested table := by
  set T1 := assignLinks target requested table with hT1
  have hfl : findAllLinks target T1 = T1.filter (fun r => r.1 = target) := by
    unfold findAllLinks
    rw [if_neg h]
  have hE : ∀ i, (i ∈ (findAllLinks target T1).map (fun r => r.2)) ↔ i ∈ requested := by
    intro i
    rw [hfl, List.mem_map]
    constructor
    · rintro ⟨r, hr, rfl⟩
      obtain ⟨hrT, hr1⟩ := List.mem_filter.mp hr
      have hr2 : r = (target, r.2) := by
        obtain ⟨a, b⟩ := r
        simp only [decide_eq_true_eq] at hr1
        simp [hr1]
      rw [hT1] at hrT
      rw [hr2] at hrT
      exact (assignLinks_mem target requested table r.2 h).mp hrT
    · intro hiR
      have hmem : (target, i) ∈ T1 := by
        rw [hT1]
        exact (assignLinks_mem target requested table i h).mpr hiR
      exact ⟨(target, i), List.mem_filter.mpr ⟨hmem, by simp⟩, rfl⟩
  have h1 : ((findAllLinks target T1).map (fun r => r.2)).filter
      (fun i => !(requested.contains i)) = [] := by
    rw [List.filter_eq_nil_iff]
    intro i hi
    have := (hE i).mp hi
    simp [this]
  have h2 : requested.filter
      (fun i => !(((findAllLinks target T1).map (fun r => r.2)).contains i)) = [] := by
    rw [List.filter_eq_nil_iff]
    intro i hi
    have := (hE i).mpr hi
    simp [this]
  show assignLinks target requested T1 = T1
  unfold assignLinks
  simp only [h1, h2]
  simp


/-- Helper: closing one session leaves the lookup of every other session
unchanged. -/
theorem lookup_filter_ne (l : List (Nat × List Nat)) (sid s : Nat) (h : s ≠ sid) :
    (l.filter (fun p => p.1 ≠ sid)).lookup s = l.lookup s := by
  simp only [ne_eq, decide_not]
  induction l with
  | nil => rfl
  | cons hd tl ih =>
    obtain ⟨k, v⟩ := hd
    by_cases hk : k = sid
    · subst hk
      have hsk : (s == k) = false := by simp [h]
      simp [List.filter, List.lookup, hsk, ih]
    · by_cases hsk : s = k
      · subst hsk
        simp [List.filter, List.lookup, hk]
      · have hsk2 : (s == k) = false := by simp [hsk]
        simp [List.filter, List.lookup, hk, hsk2, ih]

/-- Helper: appending a row to one session leaves the lookup of every
other key unchanged. -/
theorem lookup_map_addRow (l : List (Nat × List Nat)) (sid s row : Nat) (h : s ≠ sid) :
    (l.map (fun p => if p.1 = sid then (p.1, p.2 ++ [row]) else p)).lookup s = l.lookup s := by
  induction l with
  | nil => rfl
  | cons hd tl ih =>
    obtain ⟨k, v⟩ := hd
    simp only [List.map_cons]
    by_cases hk : k = sid
    · rw [if_pos (show ((k, v) : Nat × List Nat).1 = sid from hk)]
      subst hk
      have hsk : (s == k) = false := by simp [h]
      simp [List.lookup, hsk, ih]
    · rw [if_neg (show ¬(((k, v) : Nat × List Nat).1 = sid) from hk)]
      by_cases hsk : s = k
      · subst hsk
        simp [List.lookup]
      · have hsk2 : (s == k) = false := by simp [hsk]
        simp [List.lookup, hsk2, ih]

/-- Helper: a write into one session does not disturb another session's
pending list. -/
theorem lookup_addPending_ne (w : TxWorld) (sid s row : Nat) (h : s ≠ sid) :
    (addPending sid row w).pending.lookup s = w.pending.lookup s :=
  lookup_map_addRow w.pending sid s row h

/-- Helper: committing or rolling back never allocates a session. -/
theorem finishTx_nextSession (sid : Nat) (out : Outcome) (w : TxWorld) :
    (finishTx sid out w).2.nextSession = w.nextSession := by
  cases out <;> simp [finishTx, commitTx, rollbackSilent, rollbackTx]

/-- Helper: the session counter never decreases while a body runs. -/
theorem runProg_nextSession_mono (p : Prog) :
    ∀ (ctx : Ctx) (w : TxWorld), w.nextSession ≤ (runProg p ctx w).2.nextSession := by
  induction p with
  | skip => intro ctx w; simp [runProg]
  | fail m => intro ctx w; simp [runProg]
  | panicP m => intro ctx w; simp [runProg]
  | insert row =>
    intro ctx w
    cases ctx with
    | some sid => simp [runProg, addPending]
    | none =>
      simp only [runProg]
      rw [finishTx_nextSession]
      simp [beginTx, addPending]
  | seq a b iha ihb =>
    intro ctx w
    simp only [runProg]
    rcases hr : runProg a ctx w with ⟨o, w1⟩
    have ha := iha ctx w
    rw [hr] at ha
    cases o with
    | ok => exact le_trans ha (ihb ctx w1)
    | err m => exact ha
    | panicked m => exact ha
  | tx body ih =>
    intro ctx w
    simp only [runProg]
    rcases hr : runProg body (some (beginTx w).1) (beginTx w).2 with ⟨o, w2⟩
    have hb := ih (some (beginTx w).1) (beginTx w).2
    rw [hr] at hb
    have h1 : w.nextSession ≤ (beginTx w).2.nextSession := by simp [beginTx]
    calc w.nextSession ≤ (beginTx w).2.nextSession := h1
      _ ≤ w2.nextSession := hb
      _ = (finishTx (beginTx w).1 o w2).2.nextSession := (finishTx_nextSession _ _ _).symm


/-- Helper: opening a fresh session does not disturb another session's
pending list. -/
theorem beginTx_lookup_other (w : TxWorld) (s : Nat) (h : s ≠ w.nextSession) :
    (beginTx w).2.pending.lookup s = w.pending.lookup s := by
  have hb : (s == w.nextSession) = false := by simp [h]
  simp [beginTx, List.lookup, hb]

/-- Helper: the closing step of a transaction touches only its own
session: commit and rollback logs and pending entries of any other session
are preserved. -/
theorem finishTx_other (sid s : Nat) (out : Outcome) (w : TxWorld) (h : s ≠ sid) :
    ((finishTx sid out w).2.commits.count s = w.commits.count s) ∧
    ((finishTx sid out w).2.rollbacks.count s = w.rollbacks.count s) ∧
    ((finishTx sid out w).2.pending.lookup s = w.pending.lookup s) := by
  have hc : List.count s [sid] = 0 := by
    simp [List.count_singleton, h]
  cases out with
  | ok =>
    refine ⟨?_, rfl, ?_⟩
    · show List.count s (w.commits ++ [sid]) = List.count s w.commits
      rw [List.count_append, hc]
      rfl
    · show (w.pending.filter (fun p => p.1 ≠ sid)).lookup s = w.pending.lookup s
      exact lookup_filter_ne w.pending sid s h
  | err m =>
    refine ⟨rfl, ?_, ?_⟩
    · show List.count s (w.rollbacks ++ [sid]) = List.count s w.rollbacks
      rw [List.count_append, hc]
      rfl
    · show (w.pending.filter (fun p => p.1 ≠ sid)).lookup s = w.pending.lookup s
      exact lookup_filter_ne w.pending sid s h
  | panicked m =>
    refine ⟨rfl, ?_, ?_⟩
    · show List.count s (w.rollbacks ++ [sid]) = List.count s w.rollbacks
      rw [List.count_append, hc]
      rfl
    · show (w.pending.filter (fun p => p.1 ≠ sid)).lookup s = w.pending.lookup s
      exact lookup_filter_ne w.pending sid s h

/-- Helper: a body whose context does not carry session `s`, run in a
world where `s` is already allocated, never commits `s`, never rolls `s`
back, and never changes the pending writes of `s`. -/
theorem runProg_other_session (p : Prog) :
    ∀ (ctx : Ctx) (w : TxWorld) (s : Nat), s < w.nextSession → ctx ≠ some s →
      ((runProg p ctx w).2.commits.count s = w.commits.count s) ∧
      ((runProg p ctx w).2.rollbacks.count s = w.rollbacks.count s) ∧
      ((runProg p ctx w).2.pending.lookup s = w.pending.lookup s) := by
  induction p with
  | skip => exact fun ctx w s hs hctx => ⟨rfl, rfl, rfl⟩
  | fail m => exact fun ctx w s hs hctx => ⟨rfl, rfl, rfl⟩
  | panicP m => exact fun ctx w s hs hctx => ⟨rfl, rfl, rfl⟩
  | insert row =>
    intro ctx w s hs hctx
    cases ctx with
    | some sid =>
      have hne : s ≠ sid := fun he => hctx (by rw [he])
      exact ⟨rfl, rfl, lookup_addPending_ne w sid s row hne⟩
    | none =>
      have hne : s ≠ w.nextSession := Nat.ne_of_lt hs
      obtain ⟨h1, h2, h3⟩ := finishTx_other (beginTx w).1 s .ok
        (addPending (beginTx w).1 row (beginTx w).2) hne
      refine ⟨?_, ?_, ?_⟩
      · rw [show runProg (.insert row) none w =
            finishTx (beginTx w).1 .ok (addPending (beginTx w).1 row (beginTx w).2) from rfl]
        rw [h1]
        rfl
      · rw [show runProg (.insert row) none w =
            finishTx (beginTx w).1 .ok (addPending (beginTx w).1 row (beginTx w).2) from rfl]
        rw [h2]
        rfl
      · rw [show runProg (.insert row) none w =
            finishTx (beginTx w).1 .ok (addPending (beginTx w).1 row (beginTx w).2) from rfl]
        rw [h3, lookup_addPending_ne (beginTx w).2 (beginTx w).1 s row hne]
        exact beginTx_lookup_other w s hne
  | seq a b iha ihb =>
    intro ctx w s hs hctx
    simp only [runProg]
    rcases hr : runProg a ctx w with ⟨o, w1⟩
    have h1 := iha ctx w s hs hctx
    rw [hr] at h1
    have hmono := runProg_nextSession_mono a ctx w
    rw [hr] at hmono
    cases o with
    | ok =>
      have h2 := ihb ctx w1 s (lt_of_lt_of_le hs hmono) hctx
      exact ⟨h2.1.trans h1.1, h2.2.1.trans h1.2.1, h2.2.2.trans h1.2.2⟩
    | err m => exact h1
    | panicked m => exact h1
  | tx body ih =>
    intro ctx w s hs hctx
    have hne : s ≠ w.nextSession := Nat.ne_of_lt hs
    have hrun : runProg (.tx body) ctx w =
        finishTx (beginTx w).1
          (runProg body (some (beginTx w).1) (beginTx w).2).1
          (runProg body (some (beginTx w).1) (beginTx w).2).2 := rfl
    have hinner := ih (some (beginTx w).1) (beginTx w).2 s
      (Nat.lt_succ_of_lt hs)
      (by
        intro he
        exact hne (Option.some.inj he).symm)
    obtain ⟨h1, h2, h3⟩ := finishTx_other (beginTx w).1 s
      (runProg body (some (beginTx w).1) (beginTx w).2).1
      (runProg body (some (beginTx w).1) (beginTx w).2).2 hne
    refine ⟨?_, ?_, ?_⟩
    · rw [hrun, h1, hinner.1]
      rfl
    · rw [hrun, h2, hinner.2.1]
      rfl
    · rw [hrun, h3, hinner.2.2]
      exact beginTx_lookup_other w s hne

/-- Helper: a body without nested `Transaction` calls, run inside a
session, changes only pending writes: the committed database and both logs
stay untouched. -/
theorem runProg_txFree_frame (p : Prog) :
    ∀ (sid : Nat) (w : TxWorld), txFree p = true →
      ((runProg p (some sid) w).2.committed = w.committed) ∧
      ((runProg p (some sid) w).2.commits = w.commits) ∧
      ((runProg p (some sid) w).2.rollbacks = w.rollbacks) := by
  induction p with
  | skip => exact fun sid w h => ⟨rfl, rfl, rfl⟩
  | fail m => exact fun sid w h => ⟨rfl, rfl, rfl⟩
  | panicP m => exact fun sid w h => ⟨rfl, rfl, rfl⟩
  | insert row => exact fun sid w h => ⟨rfl, rfl, rfl⟩
  | seq a b iha ihb =>
    intro sid w h
    rw [txFree, Bool.and_eq_true] at h
    simp only [runProg]
    rcases hr : runProg a (some sid) w with ⟨o, w1⟩
    have h1 := iha sid w h.1
    rw [hr] at h1
    cases o with
    | ok =>
      have h2 := ihb sid w1 h.2
      exact ⟨h2.1.trans h1.1, h2.2.1.trans h1.2.1, h2.2.2.trans h1.2.2⟩
    | err m => exact h1
    | panicked m => exact h1
  | tx body ih => exact fun sid w h => absurd h (by simp [txFree])


/-- C2 counterexample: a nested `Transaction` inside a successful outer
`Transaction` commits twice — session 1 (inner) and session 0 (outer) — not
once as the claim requires. -/
theorem c2_nested_two_commits_counterexample :
    (runProg (.tx (.tx .skip)) none TxWorld.init).1 = .ok ∧
    (runProg (.tx (.tx .skip)) none TxWorld.init).2.commits = [1, 0] ∧
    ¬((runProg (.tx (.tx .skip)) none TxWorld.init).2.commits.length = 1) :=
  ⟨rfl, rfl, by decide⟩

/-- C2 (amended): `Transaction(fn)` never reuses the session carried by
the context: even when a session `s` is in flight it allocates a fresh
session (the counter strictly grows), and the nested call never commits
`s`, never rolls `s` back, and leaves the pending writes of `s` untouched —
each nesting level commits or rolls back only its own session.  Joining the
outer session happens only for individual operations
(`ExecuteInTransaction`/`getSession`), not for nested `Transaction`
calls. -/
theorem transaction_no_join_c2 (body : Prog) (s : Nat) (w : TxWorld)
    (hs : s < w.nextSession) :
    w.nextSession ≠ s ∧
    w.nextSession + 1 ≤ (runProg (.tx body) (some s) w).2.nextSession ∧
    ((runProg (.tx body) (some s) w).2.commits.count s = w.commits.count s) ∧
    ((runProg (.tx body) (some s) w).2.rollbacks.count s = w.rollbacks.count s) ∧
    ((runProg (.tx body) (some s) w).2.pending.lookup s = w.pending.lookup s) := by
  have hrw : runProg (.tx body) (some s) w = runProg (.tx body) none w := rfl
  obtain ⟨h1, h2, h3⟩ := runProg_other_session (.tx body) none w s hs (by simp)
  refine ⟨(Nat.ne_of_lt hs).symm, ?_,
    by rw [hrw]; exact h1, by rw [hrw]; exact h2, by rw [hrw]; exact h3⟩
  rw [hrw]
  have hmono := runProg_nextSession_mono body (some (beginTx w).1) (beginTx w).2
  have hfin : (runProg (.tx body) none w).2.nextSession =
      (runProg body (some (beginTx w).1) (beginTx w).2).2.nextSession := by
    rw [show runProg (.tx body) none w =
        finishTx (beginTx w).1
          (runProg body (some (beginTx w).1) (beginTx w).2).1
          (runProg body (some (beginTx w).1) (beginTx w).2).2 from rfl]
    exact finishTx_nextSession _ _ _
  rw [hfin]
  exact le_trans (Nat.le_of_eq rfl) hmono

/-- C3 counterexample: a body that runs a nested `Transaction` inserting
row 5 and then returns an error leaves the database changed — the nested
session's commit persists although the outer transaction rolls back and
returns the error. -/
theorem c3_inner_commit_persists_counterexample :
    (runProg (.tx (.seq (.tx (.insert 5)) (.fail (str "boom")))) none TxWorld.init).1 =
      .err (str "boom") ∧
    (runProg (.tx (.seq (.tx (.insert 5)) (.fail (str "boom")))) none
        TxWorld.init).2.committed = [5] ∧
    TxWorld.init.committed = [] :=
  ⟨rfl, rfl, rfl⟩

/-- C3 (amended): for a body with no nested `Transaction` call, the
transaction call returns the body's outcome unchanged; on an error or a
panic the fresh session is rolled back exactly once and the committed
database is untouched; only on success is the session committed, appending
its pending writes to the database. -/
theorem transaction_atomic_c3 (body : Prog) (ctx : Ctx) (w : TxWorld)
    (h : txFree body = true) :
    (runProg (.tx body) ctx w).1 = (runProg body (some w.nextSession) (beginTx w).2).1 ∧
    (∀ m, (runProg body (some w.nextSession) (beginTx w).2).1 = .err m →
      (runProg (.tx body) ctx w).2.committed = w.committed ∧
      (runProg (.tx body) ctx w).2.commits = w.commits ∧
      (runProg (.tx body) ctx w).2.rollbacks = w.rollbacks ++ [w.nextSession]) ∧
    (∀ m, (runProg body (some w.nextSession) (beginTx w).2).1 = .panicked m →
      (runProg (.tx body) ctx w).2.committed = w.committed ∧
      (runProg (.tx body) ctx w).2.commits = w.commits ∧
      (runProg (.tx body) ctx w).2.rollbacks = w.rollbacks ++ [w.nextSession]) ∧
    ((runProg body (some w.nextSession) (beginTx w).2).1 = .ok →
      (runProg (.tx body) ctx w).2.commits = w.commits ++ [w.nextSession] ∧
      (runProg (.tx body) ctx w).2.rollbacks = w.rollbacks ∧
      ∃ writes, (runProg (.tx body) ctx w).2.committed = w.committed ++ writes) := by
  have frame := runProg_txFree_frame body w.nextSession (beginTx w).2 h
  rcases hin : runProg body (some w.nextSession) (beginTx w).2 with ⟨o, w2⟩
  rw [hin] at frame
  have hrun : runProg (.tx body) ctx w = finishTx w.nextSession o w2 := by
    simp only [runProg]
    rw [show runProg body (some (beginTx w).1) (beginTx w).2 = (o, w2) from hin]
    rfl
  refine ⟨?_, ?_, ?_, ?_⟩
  · rw [hrun]
    cases o <;> rfl
  · intro m hm
    have ho : o = .err m := hm
    subst ho
    rw [hrun]
    refine ⟨frame.1, frame.2.1, ?_⟩
    show w2.rollbacks ++ [w.nextSession] = w.rollbacks ++ [w.nextSession]
    rw [frame.2.2]
    rfl
  · intro m hm
    have ho : o = .panicked m := hm
    subst ho
    rw [hrun]
    refine ⟨frame.1, frame.2.1, ?_⟩
    show w2.rollbacks ++ [w.nextSession] = w.rollbacks ++ [w.nextSession]
    rw [frame.2.2]
    rfl
  · intro hm
    have ho : o = .ok := hm
    subst ho
    rw [hrun]
    refine ⟨?_, frame.2.2, ?_⟩
    · show w2.commits ++ [w.nextSession] = w.commits ++ [w.nextSession]
      rw [frame.2.1]
      rfl
    · exact ⟨(w2.pending.lookup w.nextSession).getD [],
        by
          show w2.committed ++ (w2.pending.lookup w.nextSession).getD [] =
            w.committed ++ (w2.pending.lookup w.nextSession).getD []
          rw [frame.1]
          rfl⟩


/-- C7: an unmatched path is routed to the catch-all resource name
`global_default`; with no enabled resource of that name in the policy the
request passes for every runtime gating behavior, and a rejection of an
unmatched path can only come from an explicitly declared, enabled
`global_default` resource with a flow or circuit-breaker rule — the
opt-in. -/
theorem sentinel_unmatched_c7 (resources : List ResourceConfig)
    (reject : Str → Bool) (path : Str)
    (hmiss : resourceMapLookup resources path = none) :
    (matchResource resources path = (str "global_default", true)) ∧
    ((∀ r ∈ resources, r.enabled = true → r.name ≠ str "global_default") →
      middlewareDecide resources reject path = .pass) ∧
    (middlewareDecide resources reject path = .reject429 →
      ∃ r ∈ resources, r.enabled = true ∧ (r.flowEnabled || r.cbEnabled) = true ∧
        r.name = str "global_default") := by
  have hmatch : matchResource resources path = (str "global_default", true) := by
    unfold matchResource
    rw [hmiss]
  refine ⟨hmatch, ?_, ?_⟩
  · intro hnone
    have hnotmem : str "global_default" ∉ loadedRuleNames resources := by
      intro hmem
      rw [loadedRuleNames, List.mem_map] at hmem
      obtain ⟨r, hr, hname⟩ := hmem
      rw [List.mem_filter] at hr
      obtain ⟨hrmem, hren⟩ := hr
      rw [Bool.and_eq_true] at hren
      exact hnone r hrmem hren.1 hname
    unfold middlewareDecide
    rw [hmatch]
    simp [entryBlocked, hnotmem]
  · intro hrej
    unfold middlewareDecide at hrej
    rw [hmatch] at hrej
    by_cases hb : entryBlocked (loadedRuleNames resources) reject (str "global_default") = true
    · have hmem : str "global_default" ∈ loadedRuleNames resources := by
        rw [entryBlocked, Bool.and_eq_true] at hb
        simpa using hb.1
      rw [loadedRuleNames, List.mem_map] at hmem
      obtain ⟨r, hr, hname⟩ := hmem
      rw [List.mem_filter] at hr
      obtain ⟨hrmem, hren⟩ := hr
      rw [Bool.and_eq_true] at hren
      exact ⟨r, hrmem, hren.1, hren.2, hname⟩
    · simp [hb] at hrej

/-- C7 witness: a policy with one unrelated resource passes a request for
an undeclared path. -/
theorem sentinel_unmatched_c7_witness :
    resourceMapLookup [⟨ str "r1", str "/a", true, true, false⟩] (str "/b") = none ∧
      middlewareDecide [⟨ str "r1", str "/a", true, true, false⟩]
        (fun _ => true) (str "/b") = .pass :=
  ⟨by decide,
    (sentinel_unmatched_c7 [⟨ str "r1", str "/a", true, true, false⟩]
      (fun _ => true) (str "/b") (by decide)).2.1 (by decide)⟩


/-- C8 counterexample: with target id 0, `BuildFiltersFromModel` drops the
zero-valued filter, the existing links of every user are read as the
target's, and the assignment of `{7}` to user 0 leaves the table unchanged:
user 0 ends with no links instead of exactly `{7}`. -/
theorem c8_zero_target_counterexample :
    (assignUserRoles 0 [7] [(5, 7)] []).1 = [(5, 7)] ∧
    (0, 7) ∉ (assignUserRoles 0 [7] [(5, 7)] []).1 :=
  ⟨by decide, by decide⟩

/-- C8 (amended): for every nonzero target, a successful assignment leaves
the target's link rows holding exactly the requested ids, leaves every
other target's rows unchanged, is idempotent (a second identical
assignment is the identity), and invalidates the relevant permission cache
(the target's entry after `AssignUserRoles`, the whole cache after
`AssignRolePermissions`). -/
theorem assign_resync_c8 (target : Nat) (requested : List Nat)
    (table : List LinkRow) (cache : PermCache) (id : Nat) (r : LinkRow)
    (h : target ≠ 0) :
    ((target, id) ∈ assignLinks target requested table ↔ id ∈ requested) ∧
    (r.1 ≠ target → (r ∈ table ↔ r ∈ assignLinks target requested table)) ∧
    (assignLinks target requested (assignLinks target requested table) =
      assignLinks target requested table) ∧
    (assignUserRoles target requested table cache).1 = assignLinks target requested table ∧
    target ∉ (assignUserRoles target requested table cache).2 ∧
    (assignRolePermissions target requested table cache).1 =
      assignLinks target requested table ∧
    (assignRolePermissions target requested table cache).2 = [] := by
  refine ⟨assignLinks_mem target requested table id h, ?_,
    assignLinks_idem target requested table h, rfl, ?_, rfl, rfl⟩
  · intro hne
    exact ⟨(assignLinks_frame target requested table r hne).1,
      (assignLinks_frame target requested table r hne).2⟩
  · simp [assignUserRoles, List.mem_filter]

/-- C8 witness: assigning `{2,3}` to user 1 over links `{1,2}` (plus a
foreign row) yields exactly the requested links and clears user 1 from the
cache. -/
theorem assign_resync_c8_witness :
    ((1 : Nat) ≠ 0) ∧
    ((1, 3) ∈ assignLinks 1 [2, 3] [(1, 1), (1, 2), (5, 9)] ↔ 3 ∈ [2, 3]) ∧
    (1 : Nat) ∉ (assignUserRoles 1 [2, 3] [(1, 1), (1, 2), (5, 9)] [1, 5]).2 :=
  ⟨by decide,
    (assign_resync_c8 1 [2, 3] [(1, 1), (1, 2), (5, 9)] [1, 5] 3 (5, 9) (by decide)).1,
    (assign_resync_c8 1 [2, 3] [(1, 1), (1, 2), (5, 9)] [1, 5] 3 (5, 9) (by decide)).2.2.2.2.1⟩

/-- C2 witness: with session 0 in flight, a nested transaction call leaves
the commit count of session 0 unchanged. -/
theorem transaction_no_join_c2_witness :
    (0 : Nat) < (⟨1, [], [(0, [])], [], []⟩ : TxWorld).nextSession ∧
    ((runProg (.tx .skip) (some 0) ⟨1, [], [(0, [])], [], []⟩).2.commits.count 0 =
      (⟨1, [], [(0, [])], [], []⟩ : TxWorld).commits.count 0) :=
  ⟨by decide,
    (transaction_no_join_c2 .skip 0 ⟨1, [], [(0, [])], [], []⟩ (by decide)).2.2.1⟩

/-- C3 witness: a transaction around a plain insert commits its fresh
session exactly once. -/
theorem transaction_atomic_c3_witness :
    txFree (.insert 7) = true ∧
    ((runProg (.tx (.insert 7)) none TxWorld.init).2.commits =
      TxWorld.init.commits ++ [TxWorld.init.nextSession]) :=
  ⟨by decide,
    ((transaction_atomic_c3 (.insert 7) none TxWorld.init (by decide)).2.2.2 rfl).1⟩

end GoAdmin
